import Mathlib

/-!
Verification of the audio-conversion core and UI handler of the
Ai-voice repository.

The repository ships a single React component (`src/App.tsx`) whose
handler `handleGenerateSpeech` calls two utilities, `decode` (base64)
and `pcmToWavBlob` (PCM→WAV), imported from `./utils/audioUtils`; that
utility file is not part of the sources, so the decoder and encoder
are modelled from the specification (§4.1, §4.2, §7) and the handler
is embedded from `src/App.tsx`.
-/

/-- Error taxonomy from spec §7: `DecodeError` (malformed base64),
`FormatError` (invalid audio format parameters), `EmptyDataError`
(zero-length decoded audio, surfaced by the caller). -/
inductive AudioError where
  | DecodeError
  | FormatError
  | EmptyDataError
deriving DecidableEq

/-! ## Base64 decoder and reference encoder -/

/-- The standard base64 alphabet (spec §4.1: "standard alphabet"). -/
def b64Alphabet : List Char :=
  "ABCDEFGHIJKLMNOPQRSTUVWXYZabcdefghijklmnopqrstuvwxyz0123456789+/".data

/-- Index of a character in the standard base64 alphabet, `none` if it
is not a valid base64 character. -/
def b64Index (c : Char) : Option Nat :=
  let i := b64Alphabet.indexOf c
  if i < b64Alphabet.length then some i else none

/-- Look up every character of the body in the alphabet; fails if any
character is invalid. -/
def b64Indices : List Char → Option (List Nat)
  | [] => some []
  | c :: cs =>
    match b64Index c, b64Indices cs with
    | some i, some r => some (i :: r)
    | _, _ => none

/-- Convert a list of 6-bit values to bytes, 4 sextets at a time; a
trailing group of 2 sextets yields 1 byte and a group of 3 yields 2
bytes; a lone trailing sextet is malformed. -/
def sextetsToBytes : List Nat → Option (List Nat)
  | [] => some []
  | [_] => none
  | [a, b] => some [a * 4 + b / 16]
  | [a, b, c] => some [a * 4 + b / 16, b % 16 * 16 + c / 4]
  | a :: b :: c :: d :: rest =>
    (sextetsToBytes rest).map fun r =>
      (a * 4 + b / 16) :: (b % 16 * 16 + c / 4) :: (c % 4 * 64 + d) :: r

/-- Number of trailing `=` padding characters of the input. -/
def b64PadCount (cs : List Char) : Nat :=
  (cs.reverse.takeWhile (· == '=')).length

/-- The input with its trailing `=` padding removed: the valid
characters that actually carry data. -/
def b64Body (cs : List Char) : List Char :=
  (cs.reverse.dropWhile (· == '=')).reverse

/-- Modelled from the spec: the base64 decoder `decode` of the missing
`utils/audioUtils` module (spec §4.1). It accepts the standard
alphabet with optional padding and fails with `DecodeError` on
malformed input: an invalid character, more than two padding
characters, padding that does not complete a 4-character group, or a
dangling lone sextet. -/
def decodeBase64Chars (cs : List Char) : Except AudioError (List Nat) :=
  let pad := b64PadCount cs
  let body := b64Body cs
  if pad > 2 then .error .DecodeError
  else if pad ≠ 0 ∧ (body.length + pad) % 4 ≠ 0 then .error .DecodeError
  else
    match b64Indices body with
    | none => .error .DecodeError
    | some sextets =>
      match sextetsToBytes sextets with
      | none => .error .DecodeError
      | some bytes => .ok bytes

/-- Modelled from the spec: `decodeBase64(input: string) -> RawAudioBytes`
(spec §6), on Lean strings. -/
def decodeBase64 (s : String) : Except AudioError (List Nat) :=
  decodeBase64Chars s.data

/-- Number of non-padding characters of a base64 string (spec §4.1's
`validCharacterCount`). -/
def validCharCount (s : String) : Nat :=
  (b64Body s.data).length

/-- Encode bytes as 6-bit groups: every 3 bytes become 4 sextets, a
trailing byte becomes 2 sextets and a trailing pair becomes 3. -/
def encodeGroups : List Nat → List Nat
  | [] => []
  | [a] => [a / 4, a % 4 * 16]
  | [a, b] => [a / 4, a % 4 * 16 + b / 16, b % 16 * 4]
  | a :: b :: c :: rest =>
    a / 4 :: (a % 4 * 16 + b / 16) :: (b % 16 * 4 + c / 64) :: c % 64 ::
      encodeGroups rest

/-- Padding length of a standard base64 encoding of `n` bytes. -/
def b64PadLen (n : Nat) : Nat :=
  if n % 3 = 1 then 2 else if n % 3 = 2 then 1 else 0

/-- The alphabet character of a 6-bit value. -/
def sextetChar (n : Nat) : Char := b64Alphabet.getD n 'A'

/-- A standard base64 encoder (standard alphabet, `=`-padded), the
reference encoder of spec §8's round-trip property. -/
def base64EncodeChars (B : List Nat) : List Char :=
  (encodeGroups B).map sextetChar ++ List.replicate (b64PadLen B.length) '='

/-- A standard base64 encoder producing a string. -/
def base64Encode (B : List Nat) : String :=
  ⟨base64EncodeChars B⟩

/-! ## WAV encoder -/

/-- Little-endian byte expansion of a 16-bit unsigned value. -/
def u16le (n : Nat) : List Nat :=
  [n % 256, n / 256 % 256]

/-- Little-endian byte expansion of a 32-bit unsigned value. -/
def u32le (n : Nat) : List Nat :=
  [n % 256, n / 256 % 256, n / 65536 % 256, n / 16777216 % 256]

/-- Modelled from the spec: the canonical 44-byte RIFF/WAVE PCM header
of spec §4.2, fields in the exact order and widths given there. -/
def wavHeader (dataSize sr cc bps : Nat) : List Nat :=
  [0x52, 0x49, 0x46, 0x46] ++ u32le (36 + dataSize) ++
  [0x57, 0x41, 0x56, 0x45] ++
  [0x66, 0x6D, 0x74, 0x20] ++ u32le 16 ++ u16le 1 ++
  u16le cc ++ u32le sr ++ u32le (sr * cc * (bps / 8)) ++
  u16le (cc * (bps / 8)) ++ u16le bps ++
  [0x64, 0x61, 0x74, 0x61] ++ u32le dataSize

/-- Modelled from the spec: `encodeWav` / `pcmToWavBlob` of the missing
`utils/audioUtils` module (spec §4.2, §6). Fails with `FormatError`
when `sampleRate`, `channelCount` or `bitsPerSample` is non-positive
or `bitsPerSample` is not a multiple of 8; otherwise emits the 44-byte
canonical header followed by the raw PCM bytes unmodified. -/
def encodeWav (data : List Nat) (sampleRate channelCount bitsPerSample : Int) :
    Except AudioError (List Nat) :=
  if sampleRate ≤ 0 ∨ channelCount ≤ 0 ∨ bitsPerSample ≤ 0 ∨
      bitsPerSample % 8 ≠ 0 then
    .error .FormatError
  else
    .ok (wavHeader data.length sampleRate.toNat channelCount.toNat
          bitsPerSample.toNat ++ data)

/-! ## The UI handler of `src/App.tsx` -/

/-- The component state of `App` (`src/App.tsx` lines 7–10): the text
field, the loading flag, the error banner and the object URL of the
current audio element. Object URLs are modelled as natural-number
handles. -/
structure AppState where
  text : String
  isLoading : Bool
  error : Option String
  audioURL : Option Nat
deriving DecidableEq

/-- The externally visible actions the handler performs, in order:
revoking an object URL, awaiting the remote speech service, creating
an object URL. -/
inductive Event where
  | revokeObjectURL (u : Nat)
  | serviceCall (text : String)
  | createObjectURL (u : Nat)
deriving DecidableEq

/-- `text.trim()` is the empty string, i.e. the text contains only
whitespace characters: the guard `!text.trim()` of `src/App.tsx`
line 13. -/
def isBlank (s : String) : Bool :=
  s.data.all Char.isWhitespace

/-- `handleGenerateSpeech` of `src/App.tsx` lines 12–44, embedded as a
state transformer that also records its trace of external actions.
The outcome of `generateSpeech(text)` is passed in as `resp`
(`.error msg` when the awaited call throws) and the handle that
`URL.createObjectURL` would return as `newURL`. -/
def handleGenerateSpeech (s : AppState) (resp : Except String String)
    (newURL : Nat) : AppState × List Event :=
  if isBlank s.text then
    ({ s with error := some "Please enter some text to generate speech." }, [])
  else
    let revokeEvents :=
      match s.audioURL with
      | some u => [Event.revokeObjectURL u]
      | none => []
    let s1 : AppState :=
      { s with isLoading := true, error := none, audioURL := none }
    let (s2, tryEvents) :=
      match resp with
      | .error msg =>
        ({ s1 with error := some ("Failed to generate speech: " ++ msg) },
         [Event.serviceCall s.text])
      | .ok base64Audio =>
        if base64Audio = "" then
          ({ s1 with error := some ("Failed to generate speech: " ++
              "Received empty audio data from the API.") },
           [Event.serviceCall s.text])
        else
          match decodeBase64 base64Audio with
          | .error _ =>
            ({ s1 with error := some ("Failed to generate speech: " ++
                "The string to be decoded is not correctly encoded.") },
             [Event.serviceCall s.text])
          | .ok pcmData =>
            match encodeWav pcmData 24000 1 16 with
            | .error _ =>
              ({ s1 with error := some ("Failed to generate speech: " ++
                  "Invalid audio format parameters.") },
               [Event.serviceCall s.text])
            | .ok _wav =>
              ({ s1 with audioURL := some newURL },
               [Event.serviceCall s.text, Event.createObjectURL newURL])
    ({ s2 with isLoading := false }, revokeEvents ++ tryEvents)

/-- The set of live object URLs after a list of events: `revoke`
removes a handle, `create` adds one. -/
def stepLive (live : List Nat) : Event → List Nat
  | .revokeObjectURL u => live.erase u
  | .createObjectURL u => u :: live
  | .serviceCall _ => live

/-- Fold the live-URL evolution over an event trace. -/
def liveAfter (init : List Nat) (evs : List Event) : List Nat :=
  evs.foldl stepLive init

/-! ## Helper lemmas: WAV encoder -/

theorem wavHeader_length (d sr cc bps : Nat) : (wavHeader d sr cc bps).length = 44 := by
  simp [wavHeader, u16le, u32le]

theorem encodeWav_ok (B : List Nat) (sr cc bps : Nat)
    (hsr : 0 < sr) (hcc : 0 < cc) (hbps : 0 < bps) (hmul : bps % 8 = 0) :
    encodeWav B (sr : Int) (cc : Int) (bps : Int) =
      .ok (wavHeader B.length sr cc bps ++ B) := by
  unfold encodeWav
  rw [if_neg]
  · simp
  · omega

/-! ## Claim theorems: WAV encoder -/

/-- C1: for every byte sequence `B` and valid parameters (positive
sample rate, positive channel count, bits per sample a positive
multiple of 8), the buffer returned by `encodeWav` has length exactly
`44 + B.length`. -/
theorem c1_encodeWav_length (B : List Nat) (sr cc bps : Nat)
    (hsr : 0 < sr) (hcc : 0 < cc) (hbps : 0 < bps) (hmul : bps % 8 = 0) :
    ∃ out, encodeWav B (sr : Int) (cc : Int) (bps : Int) = .ok out ∧
      out.length = 44 + B.length := by
  refine ⟨_, encodeWav_ok B sr cc bps hsr hcc hbps hmul, ?_⟩
  simp [wavHeader_length]

/-- C1 witness at `B = [10, 20]`, 24000 Hz, mono, 16-bit. -/
theorem c1_encodeWav_length_witness :
    ∃ out, encodeWav [10, 20] (24000 : Int) (1 : Int) (16 : Int) = .ok out ∧
      out.length = 44 + 2 :=
  c1_encodeWav_length [10, 20] 24000 1 16 (by decide) (by decide) (by decide)
    (by decide)

/-- C2: for every byte sequence `B` and valid parameters, the first 44
bytes of `encodeWav B sr cc bps` are exactly ASCII "RIFF", uint32le
`36 + B.length`, ASCII "WAVE", ASCII "fmt ", uint32le 16, uint16le 1,
uint16le `cc`, uint32le `sr`, uint32le byteRate, uint16le blockAlign,
uint16le `bps`, ASCII "data", uint32le `B.length`, in that order. -/
theorem c2_encodeWav_header (B : List Nat) (sr cc bps : Nat)
    (hsr : 0 < sr) (hcc : 0 < cc) (hbps : 0 < bps) (hmul : bps % 8 = 0) :
    ∃ out, encodeWav B (sr : Int) (cc : Int) (bps : Int) = .ok out ∧
      out.take 44 =
        [0x52, 0x49, 0x46, 0x46] ++ u32le (36 + B.length) ++
        [0x57, 0x41, 0x56, 0x45] ++
        [0x66, 0x6D, 0x74, 0x20] ++ u32le 16 ++ u16le 1 ++
        u16le cc ++ u32le sr ++ u32le (sr * cc * (bps / 8)) ++
        u16le (cc * (bps / 8)) ++ u16le bps ++
        [0x64, 0x61, 0x74, 0x61] ++ u32le B.length := by
  refine ⟨_, encodeWav_ok B sr cc bps hsr hcc hbps hmul, ?_⟩
  rw [List.take_left' (wavHeader_length B.length sr cc bps)]
  rfl

/-- C2 witness at `B = [10, 20]`, 24000 Hz, mono, 16-bit. -/
theorem c2_encodeWav_header_witness :
    ∃ out, encodeWav [10, 20] (24000 : Int) (1 : Int) (16 : Int) = .ok out ∧
      out.take 44 =
        [0x52, 0x49, 0x46, 0x46] ++ u32le (36 + 2) ++
        [0x57, 0x41, 0x56, 0x45] ++
        [0x66, 0x6D, 0x74, 0x20] ++ u32le 16 ++ u16le 1 ++
        u16le 1 ++ u32le 24000 ++ u32le (24000 * 1 * (16 / 8)) ++
        u16le (1 * (16 / 8)) ++ u16le 16 ++
        [0x64, 0x61, 0x74, 0x61] ++ u32le 2 :=
  c2_encodeWav_header [10, 20] 24000 1 16 (by decide) (by decide) (by decide)
    (by decide)

/-- C3: for every byte sequence `B` and valid parameters, the bytes of
`encodeWav B sr cc bps` from offset 44 to the end equal `B` itself,
unmodified. -/
theorem c3_encodeWav_payload (B : List Nat) (sr cc bps : Nat)
    (hsr : 0 < sr) (hcc : 0 < cc) (hbps : 0 < bps) (hmul : bps % 8 = 0) :
    ∃ out, encodeWav B (sr : Int) (cc : Int) (bps : Int) = .ok out ∧
      out.drop 44 = B := by
  refine ⟨_, encodeWav_ok B sr cc bps hsr hcc hbps hmul, ?_⟩
  rw [List.drop_left' (wavHeader_length B.length sr cc bps)]

/-- C3 witness at `B = [10, 20]`, 24000 Hz, mono, 16-bit. -/
theorem c3_encodeWav_payload_witness :
    ∃ out, encodeWav [10, 20] (24000 : Int) (1 : Int) (16 : Int) = .ok out ∧
      out.drop 44 = [10, 20] :=
  c3_encodeWav_payload [10, 20] 24000 1 16 (by decide) (by decide) (by decide)
    (by decide)

/-- C5: `encodeWav` fails with `FormatError` iff `sampleRate`,
`channelCount` or `bitsPerSample` is non-positive or `bitsPerSample`
is not a multiple of 8; on all other inputs it succeeds; and the
three concrete invalid-parameter calls of the spec each fail with
`FormatError`. -/
theorem c5_encodeWav_formatError (B : List Nat) (sr cc bps : Int) :
    (encodeWav B sr cc bps = .error .FormatError ↔
      sr ≤ 0 ∨ cc ≤ 0 ∨ bps ≤ 0 ∨ bps % 8 ≠ 0) ∧
    (¬(sr ≤ 0 ∨ cc ≤ 0 ∨ bps ≤ 0 ∨ bps % 8 ≠ 0) →
      ∃ out, encodeWav B sr cc bps = .ok out) ∧
    encodeWav B 0 1 16 = .error .FormatError ∧
    encodeWav B 24000 (-1) 16 = .error .FormatError ∧
    encodeWav B 24000 1 7 = .error .FormatError := by
  refine ⟨?_, ?_, ?_, ?_, ?_⟩
  · unfold encodeWav
    split
    · simp_all
    · simp_all
  · intro h
    unfold encodeWav
    rw [if_neg h]
    exact ⟨_, rfl⟩
  · simp [encodeWav]
  · unfold encodeWav
    rw [if_pos (by norm_num)]
  · unfold encodeWav
    rw [if_pos (by norm_num)]

/-- C5 witness: the totality direction at valid parameters 8000 Hz,
2 channels, 8-bit. -/
theorem c5_encodeWav_formatError_witness :
    ∃ out, encodeWav [3] (8000 : Int) (2 : Int) (8 : Int) = .ok out :=
  (c5_encodeWav_formatError [3] 8000 2 8).2.1 (by norm_num)

/-- C7: on sampleRate 24000, channelCount 1, bitsPerSample 16 and the
payload `[0x01, 0x02, 0x03, 0x04]`, `encodeWav` emits a 48-byte buffer
with bytes 24–27 = `C0 5D 00 00`, bytes 28–31 = `80 BB 00 00`, bytes
32–33 = `02 00` and final four bytes `01 02 03 04`. -/
theorem c7_encodeWav_concrete :
    ∃ out, encodeWav [1, 2, 3, 4] (24000 : Int) (1 : Int) (16 : Int) = .ok out ∧
      out.length = 48 ∧
      (out.drop 24).take 4 = [0xC0, 0x5D, 0x00, 0x00] ∧
      (out.drop 28).take 4 = [0x80, 0xBB, 0x00, 0x00] ∧
      (out.drop 32).take 2 = [0x02, 0x00] ∧
      out.drop 44 = [0x01, 0x02, 0x03, 0x04] := by
  refine ⟨_, rfl, ?_, ?_, ?_, ?_, ?_⟩ <;> decide

/-! ## Helper lemmas: decoder output shapes -/

theorem sextetsToBytes_eq_nil {l : List Nat} (h : sextetsToBytes l = some []) :
    l = [] := by
  match l with
  | [] => rfl
  | [_] => simp [sextetsToBytes] at h
  | [_, _] => simp [sextetsToBytes] at h
  | [_, _, _] => simp [sextetsToBytes] at h
  | _ :: _ :: _ :: _ :: rest =>
    simp only [sextetsToBytes, Option.map_eq_some'] at h
    obtain ⟨r, -, hr⟩ := h
    exact absurd hr (by simp)

theorem b64Indices_eq_nil {l : List Char} (h : b64Indices l = some []) :
    l = [] := by
  match l with
  | [] => rfl
  | c :: cs =>
    simp only [b64Indices] at h
    cases hb : b64Index c <;> cases hcs : b64Indices cs <;>
      simp [hb, hcs] at h

theorem decodeBase64_ok_nil {s : String} (h : decodeBase64 s = .ok []) :
    s = "" := by
  simp only [decodeBase64, decodeBase64Chars] at h
  by_cases h1 : b64PadCount s.data > 2
  · simp [h1] at h
  by_cases h2 : b64PadCount s.data ≠ 0 ∧
      ((b64Body s.data).length + b64PadCount s.data) % 4 ≠ 0
  · simp only [if_neg h1, if_pos h2] at h
    exact absurd h (by simp)
  rw [if_neg h1, if_neg h2] at h
  cases hi : b64Indices (b64Body s.data) with
  | none => rw [hi] at h; exact absurd h (by simp)
  | some sextets =>
    rw [hi] at h
    dsimp only at h
    cases hs : sextetsToBytes sextets with
    | none => rw [hs] at h; exact absurd h (by simp)
    | some bytes =>
      rw [hs] at h
      have hb : bytes = [] := by simpa using h
      subst hb
      have hsx : sextets = [] := sextetsToBytes_eq_nil hs
      subst hsx
      have hbody : b64Body s.data = [] := b64Indices_eq_nil hi
      have hdrop : s.data.reverse.dropWhile (· == '=') = [] := by
        have := congrArg List.reverse hbody
        simpa [b64Body] using this
      have hpad : b64PadCount s.data = s.data.length := by
        have hsplit := List.takeWhile_append_dropWhile (· == '=') s.data.reverse
        rw [hdrop, List.append_nil] at hsplit
        simp [b64PadCount, hsplit]
      have hlen : (b64Body s.data).length = 0 := by rw [hbody]; rfl
      have hzero : s.data.length = 0 := by
        rcases not_and_or.mp h2 with h0 | h4
        · simp only [ne_eq, not_not] at h0
          omega
        · simp only [ne_eq, not_not] at h4
          omega
      apply String.ext
      exact List.length_eq_zero.mp hzero

/-! ## Helper lemmas: base64 round-trip -/

theorem sextetChar_ne_pad (n : Nat) : (sextetChar n == '=') = false := by
  have hall : ∀ c ∈ b64Alphabet, (c == '=') = false := by decide
  unfold sextetChar
  by_cases h : n < b64Alphabet.length
  · rw [List.getD_eq_getElem?_getD, List.getElem?_eq_getElem h]
    exact hall _ (List.getElem_mem h)
  · rw [List.getD_eq_default _ _ (le_of_not_lt h)]
    rfl

theorem b64Index_sextetChar : ∀ n < 64, b64Index (sextetChar n) = some n := by
  decide

theorem b64Indices_map_sextetChar (l : List Nat) (h : ∀ x ∈ l, x < 64) :
    b64Indices (l.map sextetChar) = some l := by
  induction l with
  | nil => rfl
  | cons a l ih =>
    have ha : a < 64 := h a (by simp)
    have hrest := ih fun x hx => h x (by simp [hx])
    simp [b64Indices, b64Index_sextetChar a ha, hrest]

theorem encodeGroups_lt : ∀ (B : List Nat), (∀ b ∈ B, b < 256) →
    ∀ x ∈ encodeGroups B, x < 64
  | [], _ => by simp [encodeGroups]
  | [a], h => by
    have ha := h a (by simp)
    intro x hx
    simp [encodeGroups] at hx
    rcases hx with rfl | rfl <;> omega
  | [a, b], h => by
    have ha := h a (by simp)
    have hb := h b (by simp)
    intro x hx
    simp [encodeGroups] at hx
    rcases hx with rfl | rfl | rfl <;> omega
  | a :: b :: c :: rest, h => by
    have ha := h a (by simp)
    have hb := h b (by simp)
    have hc := h c (by simp)
    have ih := encodeGroups_lt rest fun x hx => h x (by simp [hx])
    intro x hx
    simp only [encodeGroups, List.mem_cons] at hx
    rcases hx with rfl | rfl | rfl | rfl | hx
    · omega
    · omega
    · omega
    · omega
    · exact ih x hx

theorem sextetsToBytes_encodeGroups : ∀ (B : List Nat), (∀ b ∈ B, b < 256) →
    sextetsToBytes (encodeGroups B) = some B
  | [], _ => rfl
  | [a], h => by
    have ha := h a (by simp)
    simp [encodeGroups, sextetsToBytes]
    omega
  | [a, b], h => by
    have ha := h a (by simp)
    have hb := h b (by simp)
    simp [encodeGroups, sextetsToBytes]
    constructor <;> omega
  | a :: b :: c :: rest, h => by
    have ha := h a (by simp)
    have hb := h b (by simp)
    have hc := h c (by simp)
    have ih := sextetsToBytes_encodeGroups rest fun x hx => h x (by simp [hx])
    simp only [encodeGroups, sextetsToBytes, ih, Option.map_some']
    refine congrArg some ?_
    have h1 : a / 4 * 4 + (a % 4 * 16 + b / 16) / 16 = a := by omega
    have h2 : (a % 4 * 16 + b / 16) % 16 * 16 + (b % 16 * 4 + c / 64) / 4 = b := by
      omega
    have h3 : (b % 16 * 4 + c / 64) % 4 * 64 + c % 64 = c := by omega
    rw [h1, h2, h3]

theorem pad_split (p : Nat) (ys : List Char) (h : ∀ y ∈ ys, (y == '=') = false) :
    (List.replicate p '=' ++ ys).takeWhile (· == '=') = List.replicate p '=' ∧
    (List.replicate p '=' ++ ys).dropWhile (· == '=') = ys := by
  induction p with
  | zero =>
    simp only [List.replicate, List.nil_append]
    cases ys with
    | nil => simp
    | cons y ys =>
      have hy := h y (by simp)
      simp [List.takeWhile_cons, List.dropWhile_cons, hy]
  | succ n ih =>
    simp [List.replicate_succ, List.takeWhile_cons, List.dropWhile_cons, ih]

theorem b64_encode_split (B : List Nat) :
    b64PadCount (base64EncodeChars B) = b64PadLen B.length ∧
    b64Body (base64EncodeChars B) = (encodeGroups B).map sextetChar := by
  have h : ∀ y ∈ ((encodeGroups B).map sextetChar).reverse, (y == '=') = false := by
    intro y hy
    rw [List.mem_reverse] at hy
    obtain ⟨x, -, rfl⟩ := List.mem_map.mp hy
    exact sextetChar_ne_pad x
  have hsplit := pad_split (b64PadLen B.length)
    (((encodeGroups B).map sextetChar).reverse) h
  constructor
  · rw [b64PadCount, base64EncodeChars, List.reverse_append,
      List.reverse_replicate, hsplit.1]
    simp
  · rw [b64Body, base64EncodeChars, List.reverse_append,
      List.reverse_replicate, hsplit.2]
    simp

theorem encodeGroups_pad_mod : ∀ (B : List Nat),
    ((encodeGroups B).length + b64PadLen B.length) % 4 = 0
  | [] => by simp [encodeGroups, b64PadLen]
  | [a] => by simp [encodeGroups, b64PadLen]
  | [a, b] => by simp [encodeGroups, b64PadLen]
  | a :: b :: c :: rest => by
    have ih := encodeGroups_pad_mod rest
    have hpl : b64PadLen (rest.length + 3) = b64PadLen rest.length := by
      simp [b64PadLen, Nat.add_mod_right]
    have hlen : (encodeGroups (a :: b :: c :: rest)).length =
        4 + (encodeGroups rest).length := by
      simp [encodeGroups]
      omega
    have hlen' : (a :: b :: c :: rest).length = rest.length + 3 := by
      simp
    rw [hlen, hlen', hpl]
    omega

theorem b64PadLen_le (n : Nat) : b64PadLen n ≤ 2 := by
  unfold b64PadLen
  split
  · omega
  · split <;> omega

theorem b64Indices_length : ∀ {l : List Char} {r : List Nat},
    b64Indices l = some r → r.length = l.length
  | [], r, h => by
    simp only [b64Indices, Option.some.injEq] at h
    simp [← h]
  | c :: cs, r, h => by
    simp only [b64Indices] at h
    cases hb : b64Index c with
    | none => rw [hb] at h; simp at h
    | some i =>
      rw [hb] at h
      cases hcs : b64Indices cs with
      | none => rw [hcs] at h; simp at h
      | some r' =>
        rw [hcs] at h
        have ih := b64Indices_length hcs
        simp only [Option.some.injEq] at h
        simp [← h, ih]

theorem sextetsToBytes_length : ∀ {l r : List Nat},
    sextetsToBytes l = some r → r.length = 3 * l.length / 4
  | [], r, h => by
    simp only [sextetsToBytes, Option.some.injEq] at h
    simp [← h]
  | [_], r, h => by simp [sextetsToBytes] at h
  | [_, _], r, h => by
    simp only [sextetsToBytes, Option.some.injEq] at h
    simp [← h]
  | [_, _, _], r, h => by
    simp only [sextetsToBytes, Option.some.injEq] at h
    simp [← h]
  | _ :: _ :: _ :: _ :: rest, r, h => by
    simp only [sextetsToBytes, Option.map_eq_some'] at h
    obtain ⟨r', hr', rfl⟩ := h
    have ih := sextetsToBytes_length hr'
    simp only [List.length_cons, ih]
    omega

/-! ## Claim theorems: base64 -/

/-- C4: decoding the string produced by a standard base64 encoder
applied to any byte sequence `B` returns exactly `B`. -/
theorem c4_decode_encode (B : List Nat) (h : ∀ b ∈ B, b < 256) :
    decodeBase64 (base64Encode B) = .ok B := by
  have hpad := (b64_encode_split B).1
  have hbody := (b64_encode_split B).2
  have hlt := encodeGroups_lt B h
  have h1 : ¬ b64PadCount (base64EncodeChars B) > 2 := by
    rw [hpad]
    have := b64PadLen_le B.length
    omega
  have h2 : ¬ (b64PadCount (base64EncodeChars B) ≠ 0 ∧
      ((List.map sextetChar (encodeGroups B)).length +
        b64PadCount (base64EncodeChars B)) % 4 ≠ 0) := by
    rintro ⟨-, hq⟩
    apply hq
    rw [hpad, List.length_map]
    exact encodeGroups_pad_mod B
  show decodeBase64Chars (base64EncodeChars B) = .ok B
  simp only [decodeBase64Chars, if_neg h1, if_neg h2, hbody,
    b64Indices_map_sextetChar _ hlt, sextetsToBytes_encodeGroups B h]

/-- C4 witness at `B = [1, 2, 3, 4]`. -/
theorem c4_decode_encode_witness :
    decodeBase64 (base64Encode [1, 2, 3, 4]) = .ok [1, 2, 3, 4] :=
  c4_decode_encode [1, 2, 3, 4] (by decide)

/-- C6: `decodeBase64` rejects the spec's malformed input with
`DecodeError`, accepts standard padded base64, only ever fails with
`DecodeError`, and on success the output byte length is
`⌊3 * validCharacterCount / 4⌋`. -/
theorem c6_decodeBase64_errors :
    decodeBase64 "not valid base64!!" = .error .DecodeError ∧
    decodeBase64 "AA==" = .ok [0] ∧
    (∀ s e, decodeBase64 s = .error e → e = .DecodeError) ∧
    (∀ s bytes, decodeBase64 s = .ok bytes →
      bytes.length = 3 * validCharCount s / 4) := by
  refine ⟨rfl, rfl, ?_, ?_⟩
  · intro s e h
    simp only [decodeBase64, decodeBase64Chars] at h
    by_cases h1 : b64PadCount s.data > 2
    · rw [if_pos h1] at h
      exact (Except.error.inj h).symm
    rw [if_neg h1] at h
    by_cases h2 : b64PadCount s.data ≠ 0 ∧
        ((b64Body s.data).length + b64PadCount s.data) % 4 ≠ 0
    · rw [if_pos h2] at h
      exact (Except.error.inj h).symm
    rw [if_neg h2] at h
    cases hi : b64Indices (b64Body s.data) with
    | none => rw [hi] at h; exact (Except.error.inj h).symm
    | some sx =>
      rw [hi] at h
      dsimp only at h
      cases hs : sextetsToBytes sx with
      | none => rw [hs] at h; exact (Except.error.inj h).symm
      | some bs => rw [hs] at h; exact Except.noConfusion h
  · intro s bytes h
    simp only [decodeBase64, decodeBase64Chars] at h
    by_cases h1 : b64PadCount s.data > 2
    · rw [if_pos h1] at h
      exact Except.noConfusion h
    rw [if_neg h1] at h
    by_cases h2 : b64PadCount s.data ≠ 0 ∧
        ((b64Body s.data).length + b64PadCount s.data) % 4 ≠ 0
    · rw [if_pos h2] at h
      exact Except.noConfusion h
    rw [if_neg h2] at h
    cases hi : b64Indices (b64Body s.data) with
    | none => rw [hi] at h; exact Except.noConfusion h
      | some sx =>
        rw [hi] at h
        dsimp only at h
        cases hs : sextetsToBytes sx with
        | none => rw [hs] at h; simp at h
        | some bs =>
          rw [hs] at h
          have hb : bs = bytes := by simpa using h
          subst hb
          rw [validCharCount, ← b64Indices_length hi]
          exact sextetsToBytes_length hs

/-- C6 witness: the length law applied at the padded input "QUJD". -/
theorem c6_decodeBase64_errors_witness :
    ([65, 66, 67] : List Nat).length = 3 * validCharCount "QUJD" / 4 :=
  c6_decodeBase64_errors.2.2.2 "QUJD" [65, 66, 67] rfl

/-! ## Helper lemmas: handler traces -/

theorem encodeWav_24k (pcm : List Nat) :
    encodeWav pcm 24000 1 16 = .ok (wavHeader pcm.length 24000 1 16 ++ pcm) := by
  unfold encodeWav
  rw [if_neg (by norm_num)]
  rfl

theorem handler_trace_shape (s : AppState) (resp : Except String String)
    (newURL u : Nat) (ht : isBlank s.text = false) (ha : s.audioURL = some u) :
    (handleGenerateSpeech s resp newURL).2 =
      [Event.revokeObjectURL u, Event.serviceCall s.text] ∨
    (handleGenerateSpeech s resp newURL).2 =
      [Event.revokeObjectURL u, Event.serviceCall s.text,
       Event.createObjectURL newURL] := by
  cases resp with
  | error msg =>
    left
    simp [handleGenerateSpeech, ht, ha]
  | ok b =>
    by_cases hb : b = ""
    · left
      simp [handleGenerateSpeech, ht, ha, hb]
    · cases hd : decodeBase64 b with
      | error e =>
        left
        simp [handleGenerateSpeech, ht, ha, hb, hd]
      | ok pcm =>
        right
        simp [handleGenerateSpeech, ht, ha, hb, hd, encodeWav_24k]

theorem liveAfter_trace2 (u : Nat) (t : String) (k : Nat) :
    (liveAfter [u]
      (([Event.revokeObjectURL u, Event.serviceCall t]).take k)).length ≤ 1 := by
  match k with
  | 0 => simp [liveAfter]
  | 1 => simp [liveAfter, stepLive]
  | n + 2 => simp [liveAfter, stepLive]

theorem liveAfter_trace3 (u w : Nat) (t : String) (k : Nat) :
    (liveAfter [u]
      (([Event.revokeObjectURL u, Event.serviceCall t,
         Event.createObjectURL w]).take k)).length ≤ 1 := by
  match k with
  | 0 => simp [liveAfter]
  | 1 => simp [liveAfter, stepLive]
  | 2 => simp [liveAfter, stepLive]
  | n + 3 => simp [liveAfter, stepLive]

/-! ## Claim theorems: UI handler -/

/-- C8: when the service responds but the decoded audio data has zero
length, the handler fails: a user-visible error is set, no audio URL
is stored, and no object URL is created. -/
theorem c8_handler_emptyAudio (s : AppState) (s64 : String) (newURL : Nat)
    (ht : isBlank s.text = false) (hd : decodeBase64 s64 = .ok []) :
    (handleGenerateSpeech s (.ok s64) newURL).1.error =
      some ("Failed to generate speech: " ++
        "Received empty audio data from the API.") ∧
    (handleGenerateSpeech s (.ok s64) newURL).1.audioURL = none ∧
    ∀ v, Event.createObjectURL v ∉ (handleGenerateSpeech s (.ok s64) newURL).2 := by
  have hs : s64 = "" := decodeBase64_ok_nil hd
  subst hs
  cases ha : s.audioURL <;>
    simp [handleGenerateSpeech, ht, ha]

/-- C8 witness: a run from a blank-free state whose service response
is the empty string. -/
theorem c8_handler_emptyAudio_witness :
    (handleGenerateSpeech ⟨"hi", false, none, none⟩ (.ok "") 7).1.error =
      some ("Failed to generate speech: " ++
        "Received empty audio data from the API.") ∧
    (handleGenerateSpeech ⟨"hi", false, none, none⟩ (.ok "") 7).1.audioURL =
      none ∧
    Event.createObjectURL 7 ∉
      (handleGenerateSpeech ⟨"hi", false, none, none⟩ (.ok "") 7).2 := by
  have h := c8_handler_emptyAudio ⟨"hi", false, none, none⟩ "" 7
    (by decide) rfl
  exact ⟨h.1, h.2.1, h.2.2 7⟩

/-- C9: in every run starting with an existing audio handle, any
creation of a new object URL is strictly preceded by the revocation of
the prior handle, and at no point during the run is more than one
object URL live. -/
theorem c9_handler_resource (s : AppState) (resp : Except String String)
    (newURL u : Nat) (ha : s.audioURL = some u) :
    (∀ k v, Event.createObjectURL v ∈
        (handleGenerateSpeech s resp newURL).2.take (k + 1) →
      Event.revokeObjectURL u ∈ (handleGenerateSpeech s resp newURL).2.take k) ∧
    (∀ k, (liveAfter [u] ((handleGenerateSpeech s resp newURL).2.take k)).length ≤ 1) := by
  by_cases ht : isBlank s.text
  · have htr : (handleGenerateSpeech s resp newURL).2 = [] := by
      simp [handleGenerateSpeech, ht]
    rw [htr]
    exact ⟨fun k v hv => absurd hv (by simp),
      fun k => by simp [liveAfter]⟩
  · rcases handler_trace_shape s resp newURL u (by simpa using ht) ha with
      htr | htr <;> rw [htr]
    · refine ⟨fun k v hv => absurd (List.mem_of_mem_take hv) (by simp), ?_⟩
      exact fun k => liveAfter_trace2 u s.text k
    · refine ⟨?_, fun k => liveAfter_trace3 u newURL s.text k⟩
      intro k v hv
      match k with
      | 0 => simp [List.take] at hv
      | 1 => simp [List.take] at hv
      | n + 2 => simp [List.take]

/-- C9 witness: a successful run from a state holding handle 5, which
creates handle 7 only after revoking 5 and never has two live URLs. -/
theorem c9_handler_resource_witness :
    Event.revokeObjectURL 5 ∈
      (handleGenerateSpeech ⟨"hi", false, none, some 5⟩ (.ok "AQID") 7).2.take 2 ∧
    (liveAfter [5]
      ((handleGenerateSpeech ⟨"hi", false, none, some 5⟩ (.ok "AQID") 7).2.take 3)).length ≤ 1 := by
  have h := c9_handler_resource ⟨"hi", false, none, some 5⟩ (.ok "AQID") 7 5 rfl
  exact ⟨h.1 2 7 (by decide), h.2 3⟩

/-- C10: on blank input text the handler sets the error message
"Please enter some text to generate speech." and returns at once:
the loading flag is not set, no service call happens (empty trace),
and the stored audio URL is unchanged. -/
theorem c10_handler_blankText (s : AppState) (resp : Except String String)
    (newURL : Nat) (ht : isBlank s.text = true) :
    handleGenerateSpeech s resp newURL =
      ({ s with error := some "Please enter some text to generate speech." },
       []) := by
  simp [handleGenerateSpeech, ht]

/-- C10 witness: whitespace-only text, with a pending audio handle and
a service response that would otherwise succeed. -/
theorem c10_handler_blankText_witness :
    handleGenerateSpeech ⟨" ", false, none, some 5⟩ (.ok "AQID") 7 =
      ({ text := " ", isLoading := false,
         error := some "Please enter some text to generate speech.",
         audioURL := some 5 }, []) :=
  c10_handler_blankText ⟨" ", false, none, some 5⟩ (.ok "AQID") 7 (by decide)
